import Mathlib

/-
Shallow embedding of the TLT (TimeLocked Truth Markets) settlement core:
the Sui Move modules `truth_markets::claim_registry` (contracts, part_000),
`truth_markets::market` (contracts/sources/market.move) and
`truth_markets::attestation` (source embedded in the repository README).

Machine integers are modelled as `Nat` together with the Move semantics of
u64 arithmetic: any addition or multiplication whose result would exceed
`u64` aborts, subtraction aborts on underflow, and division by zero aborts.
Every Move `assert!`/abort is modelled by an `Except MoveErr` result; an
`Except.error` result corresponds to a transaction abort, which leaves all
on-chain state unchanged (Sui transactions are atomic).
-/

namespace TruthMarkets

/-- Bound of u64 arithmetic: Move aborts when a u64 operation reaches this. -/
def U64_MOD : Nat := 2 ^ 64

/-- Abort reasons of the three modules, plus the aborts raised inside the Sui
framework (`dynamic_field`, `balance`) and by native u64 arithmetic. -/
inductive MoveErr where
  /-- claim_registry: EInvalidDeadline = 0 -/
  | EInvalidDeadline
  /-- claim_registry: EClaimAlreadyResolved = 1 -/
  | EClaimAlreadyResolved
  /-- claim_registry: EDeadlineNotReached = 2 -/
  | EDeadlineNotReached
  /-- claim_registry and attestation: EUnauthorized -/
  | EUnauthorized
  /-- claim_registry: EInvalidStatus = 4 -/
  | EInvalidStatus
  /-- market: EInvalidAmount = 0 -/
  | EInvalidAmount
  /-- market: EClaimNotResolved = 1 -/
  | EClaimNotResolved
  /-- market: EAlreadyClaimed = 2 -/
  | EAlreadyClaimed
  /-- market: ENoWinnings = 3 -/
  | ENoWinnings
  /-- market: EInvalidClaim = 4 -/
  | EInvalidClaim
  /-- attestation: EInvalidMeasurement = 0 -/
  | EInvalidMeasurement
  /-- attestation: EMeasurementNotWhitelisted = 1 -/
  | EMeasurementNotWhitelisted
  /-- attestation: EInvalidAttestation = 3 -/
  | EInvalidAttestation
  /-- sui::dynamic_field: abort of `add` when the key already exists
  (raised through `sui::table::add`) -/
  | EFieldAlreadyExists
  /-- sui::dynamic_field: abort of `borrow_mut` when the key is absent -/
  | EFieldDoesNotExist
  /-- sui::balance: abort of `split`/`take` when the balance is too small -/
  | ENotEnough
  /-- native u64 arithmetic: overflow abort -/
  | EArithOverflow
  /-- native u64 arithmetic: subtraction underflow abort -/
  | EArithUnderflow
  /-- native u64 arithmetic: division by zero abort -/
  | EDivByZero
  /-- a transaction naming an object id that does not exist cannot be
  executed at all; modelled as a failing step of the world model -/
  | EMissingObject
deriving DecidableEq, Repr

/-- Claim status constants STATUS_OPEN = 0, STATUS_RESOLVING = 1,
STATUS_RESOLVED = 2, STATUS_CANCELLED = 3 of `claim_registry`. -/
inductive Status where
  | Open
  | Resolving
  | Resolved
  | Cancelled
deriving DecidableEq, Repr

/-- Claim object of `truth_markets::claim_registry` (addresses and object ids
are modelled as `Nat`, byte vectors as `List Nat`). The `escrow : Balance<SUI>`
field is modelled by its value. -/
structure Claim where
  creator : Nat
  spec_blob_id : String
  evidence_blob_id : String
  description : String
  deadline : Nat
  status : Status
  result : Option Bool
  result_blob_id : Option String
  resolver_measurement : Option (List Nat)
  yes_stake : Nat
  no_stake : Nat
  creator_fee_bps : Nat
  protocol_fee_bps : Nat
  escrow : Nat
  created_at : Nat
  resolved_at : Option Nat
deriving DecidableEq, Repr

/-- ClaimRegistry shared object of `truth_markets::claim_registry`. -/
structure ClaimRegistry where
  total_claims : Nat
  protocol_fee_recipient : Nat
  default_protocol_fee_bps : Nat
deriving DecidableEq, Repr

/-- Claim registry produced by `init`: zero claims, publisher as fee
recipient, default protocol fee 100 bps. -/
def initRegistry (publisher : Nat) : ClaimRegistry :=
  { total_claims := 0
    protocol_fee_recipient := publisher
    default_protocol_fee_bps := 100 }

/-- Embedding of `claim_registry::create_claim`. The caller is `creator`
(`tx_context::sender`), `now` is `clock::timestamp_ms`. Returns the updated
registry together with the new shared Claim. Note that no bound whatsoever
is checked on `creator_fee_bps`. -/
def create_claim (registry : ClaimRegistry) (spec_blob_id evidence_blob_id description : String)
    (deadline creator_fee_bps : Nat) (creator now : Nat) :
    Except MoveErr (ClaimRegistry × Claim) :=
  if deadline ≤ now then .error .EInvalidDeadline
  else if U64_MOD ≤ registry.total_claims + 1 then .error .EArithOverflow
  else
    .ok ({ registry with total_claims := registry.total_claims + 1 },
      { creator := creator
        spec_blob_id := spec_blob_id
        evidence_blob_id := evidence_blob_id
        description := description
        deadline := deadline
        status := .Open
        result := none
        result_blob_id := none
        resolver_measurement := none
        yes_stake := 0
        no_stake := 0
        creator_fee_bps := creator_fee_bps
        protocol_fee_bps := registry.default_protocol_fee_bps
        escrow := 0
        created_at := now
        resolved_at := none })

/-- Embedding of `claim_registry::add_stake`: requires status Open, joins the
coin into escrow (u64 overflow aborts) and credits the chosen side total. -/
def add_stake (claim : Claim) (amount : Nat) (is_yes : Bool) : Except MoveErr Claim :=
  if claim.status ≠ .Open then .error .EInvalidStatus
  else if U64_MOD ≤ claim.escrow + amount then .error .EArithOverflow
  else if is_yes then
    if U64_MOD ≤ claim.yes_stake + amount then .error .EArithOverflow
    else .ok { claim with escrow := claim.escrow + amount,
                          yes_stake := claim.yes_stake + amount }
  else
    if U64_MOD ≤ claim.no_stake + amount then .error .EArithOverflow
    else .ok { claim with escrow := claim.escrow + amount,
                          no_stake := claim.no_stake + amount }

/-- Embedding of `claim_registry::resolve_claim`: deadline is checked first,
then the status must be Open or Resolving; on success the claim becomes
Resolved with result, result blob, resolver measurement and resolution time
recorded. -/
def resolve_claim (claim : Claim) (result : Bool) (result_blob_id : String)
    (resolver_measurement : List Nat) (now : Nat) : Except MoveErr Claim :=
  if now < claim.deadline then .error .EDeadlineNotReached
  else if claim.status = .Open ∨ claim.status = .Resolving then
    .ok { claim with status := .Resolved
                     result := some result
                     result_blob_id := some result_blob_id
                     resolver_measurement := some resolver_measurement
                     resolved_at := some now }
  else .error .EClaimAlreadyResolved

/-- Embedding of `claim_registry::cancel_claim`. The caller is `caller`
(`tx_context::sender`); `reason` only feeds the emitted event. Checks, in
source order: caller is the creator, both stake totals are zero, status is
Open; then sets status Cancelled. -/
def cancel_claim (claim : Claim) (reason : String) (caller : Nat) : Except MoveErr Claim :=
  if claim.creator ≠ caller then .error .EUnauthorized
  else if ¬ (claim.yes_stake = 0 ∧ claim.no_stake = 0) then .error .EInvalidStatus
  else if claim.status ≠ .Open then .error .EInvalidStatus
  else .ok { claim with status := .Cancelled }

/-- Embedding of `claim_registry::withdraw_escrow`, i.e. `coin::take` on the
escrow balance: aborts when `amount` exceeds the escrow, otherwise debits it
and returns the withdrawn coin value. -/
def withdraw_escrow (claim : Claim) (amount : Nat) : Except MoveErr (Claim × Nat) :=
  if claim.escrow < amount then .error .ENotEnough
  else .ok ({ claim with escrow := claim.escrow - amount }, amount)

/-- Position object of `truth_markets::market`. -/
structure Position where
  claim_id : Nat
  user : Nat
  yes_amount : Nat
  no_amount : Nat
  claimed : Bool
deriving DecidableEq, Repr

/-- MarketState shared object of `truth_markets::market`; the
`Table<address, ID>` is modelled as an association list from user address to
position id. -/
structure MarketState where
  claim_id : Nat
  positions : List (Nat × Nat)
  total_positions : Nat
deriving DecidableEq, Repr

/-- Association-list lookup used to model `sui::table` (first match, as a
table with unique keys). -/
def lookupA {α : Type} [DecidableEq α] {β : Type} : List (α × β) → α → Option β
  | [], _ => none
  | (k, v) :: t, k' => if k = k' then some v else lookupA t k'

/-- Association-list update of the first entry with the given key, used to
model mutation of a `sui::table` entry. -/
def updateA {α : Type} [DecidableEq α] {β : Type} : List (α × β) → α → β → List (α × β)
  | [], _, _ => []
  | (k, v) :: t, k', v' => if k = k' then (k', v') :: t else (k, v) :: updateA t k' v'

/-- MarketState produced by `market::create_market` for a claim id. -/
def create_market (claim_id : Nat) : MarketState :=
  { claim_id := claim_id, positions := [], total_positions := 0 }

/-- Embedding of `market::stake`. The staked coin has value `amount`, the
caller is `user`; `claim_id` is `object::id(claim)` and `fresh_id` models the
fresh object id minted by `object::new`. Checks, in source order: positive
amount, claim Open (market's own check, then again inside `add_stake`); then
credits the escrow, builds the new Position and inserts its id into the
market table with `table::add` — which aborts when the user already has an
entry (the `table::contains` branch in the source reads the old entry but has
no effect). -/
def stake (claim : Claim) (market : MarketState) (claim_id : Nat)
    (amount : Nat) (is_yes : Bool) (user : Nat) (fresh_id : Nat) :
    Except MoveErr (Claim × MarketState × Position) :=
  if amount = 0 then .error .EInvalidAmount
  else if claim.status ≠ .Open then .error .EInvalidClaim
  else
    match add_stake claim amount is_yes with
    | .error e => .error e
    | .ok claim' =>
      let position : Position :=
        { claim_id := claim_id
          user := user
          yes_amount := if is_yes then amount else 0
          no_amount := if is_yes then 0 else amount
          claimed := false }
      if (lookupA market.positions user).isSome then .error .EFieldAlreadyExists
      else if U64_MOD ≤ market.total_positions + 1 then .error .EArithOverflow
      else
        .ok (claim',
          { market with positions := (user, fresh_id) :: market.positions,
                        total_positions := market.total_positions + 1 },
          position)

/-- Payout computation of `market::claim_winnings` (source lines 130–151):
user stake on the winning side, its share of the winning total in basis
points, winnings taken from the losing total, minus fees, all with truncating
division. -/
def payout_formula (won : Bool) (position : Position) (claim : Claim) : Nat :=
  let user_stake := if won then position.yes_amount else position.no_amount
  let winning_stake := if won then claim.yes_stake else claim.no_stake
  let losing_stake := if won then claim.no_stake else claim.yes_stake
  let total_fee_bps := claim.creator_fee_bps + claim.protocol_fee_bps
  let user_share := user_stake * 10000 / winning_stake
  let winnings_from_losers := losing_stake * user_share / 10000
  let fees := winnings_from_losers * total_fee_bps / 10000
  let net_winnings := winnings_from_losers - fees
  user_stake + net_winnings

/-- Source line 130 of `market::claim_winnings`: the caller's stake on the
winning side, `user_stake = if (won) position.yes_amount else
position.no_amount`. -/
def w_user_stake (won : Bool) (position : Position) : Nat :=
  if won then position.yes_amount else position.no_amount

/-- Source line 138 of `market::claim_winnings`: the winning side's total. -/
def w_winning_stake (won : Bool) (claim : Claim) : Nat :=
  if won then claim.yes_stake else claim.no_stake

/-- Source line 139 of `market::claim_winnings`: the losing side's total. -/
def w_losing_stake (won : Bool) (claim : Claim) : Nat :=
  if won then claim.no_stake else claim.yes_stake

/-- Source line 146 of `market::claim_winnings`: the caller's share of the
winning side in basis points, `user_stake * 10000 / winning_stake`. -/
def w_user_share (won : Bool) (position : Position) (claim : Claim) : Nat :=
  w_user_stake won position * 10000 / w_winning_stake won claim

/-- Source line 147 of `market::claim_winnings`:
`losing_stake * user_share / 10000`. -/
def w_winnings_from_losers (won : Bool) (position : Position) (claim : Claim) : Nat :=
  w_losing_stake won claim * w_user_share won position claim / 10000

/-- Source line 148 of `market::claim_winnings`:
`winnings_from_losers * (creator_fee_bps + protocol_fee_bps) / 10000`. -/
def w_fees (won : Bool) (position : Position) (claim : Claim) : Nat :=
  w_winnings_from_losers won position claim *
    (claim.creator_fee_bps + claim.protocol_fee_bps) / 10000

/-- Source lines 149–151 of `market::claim_winnings`:
`total_payout = user_stake + (winnings_from_losers - fees)`. -/
def w_total_payout (won : Bool) (position : Position) (claim : Claim) : Nat :=
  w_user_stake won position +
    (w_winnings_from_losers won position claim - w_fees won position claim)

/-- Modelling of a Move `assert!(b, e)`: succeeds exactly when `b` holds. -/
def require (b : Prop) [Decidable b] (e : MoveErr) : Except MoveErr Unit :=
  if b then .ok () else .error e

/-- Native u64 addition: aborts on overflow. -/
def u64add (a b : Nat) : Except MoveErr Nat :=
  if U64_MOD ≤ a + b then .error .EArithOverflow else .ok (a + b)

/-- Native u64 multiplication: aborts on overflow. -/
def u64mul (a b : Nat) : Except MoveErr Nat :=
  if U64_MOD ≤ a * b then .error .EArithOverflow else .ok (a * b)

/-- Native u64 subtraction: aborts on underflow. -/
def u64sub (a b : Nat) : Except MoveErr Nat :=
  if a < b then .error .EArithUnderflow else .ok (a - b)

/-- Native u64 division: aborts on a zero divisor. -/
def u64div (a b : Nat) : Except MoveErr Nat :=
  if b = 0 then .error .EDivByZero else .ok (a / b)

/-- Source lines 126–129 of `market::claim_winnings`:
`assert!(is_some(result), EClaimNotResolved)` followed by `*borrow(&result)`. -/
def borrow_result (claim : Claim) : Except MoveErr Bool :=
  match claim.result with
  | none => .error .EClaimNotResolved
  | some b => .ok b

/-- Embedding of `market::claim_winnings`. The caller is `caller`
(`tx_context::sender`). Checks, in source order: the claim is Resolved, the
position is unclaimed, the caller owns the position, the result is present,
the caller's stake on the winning side is positive; then computes the payout
with u64 arithmetic (each arithmetic step of source lines 137–151 in order,
with its Move abort), withdraws it from escrow and marks the position
claimed. Returns the updated claim, the updated position and the payout coin
value. Note that the source never checks `position.claim_id` against the
passed claim. -/
def claim_winnings (claim : Claim) (position : Position) (caller : Nat) :
    Except MoveErr (Claim × Position × Nat) :=
  (require (claim.status = .Resolved) .EClaimNotResolved).bind fun _ =>
  (require (position.claimed = false) .EAlreadyClaimed).bind fun _ =>
  (require (position.user = caller) .EInvalidClaim).bind fun _ =>
  (borrow_result claim).bind fun won =>
  (require (0 < w_user_stake won position) .ENoWinnings).bind fun _ =>
  (u64add claim.yes_stake claim.no_stake).bind fun _total_stake =>
  (u64add claim.creator_fee_bps claim.protocol_fee_bps).bind fun total_fee_bps =>
  (u64mul (w_user_stake won position) 10000).bind fun share_numerator =>
  (u64div share_numerator (w_winning_stake won claim)).bind fun user_share =>
  (u64mul (w_losing_stake won claim) user_share).bind fun winnings_numerator =>
  (u64mul (winnings_numerator / 10000) total_fee_bps).bind fun fees_numerator =>
  (u64sub (winnings_numerator / 10000) (fees_numerator / 10000)).bind fun net_winnings =>
  (u64add (w_user_stake won position) net_winnings).bind fun total_payout =>
  (withdraw_escrow claim total_payout).bind fun payout =>
  .ok (payout.1, { position with claimed := true }, payout.2)

/-- Embedding of `market::claim_refund`. Checks, in source order: the claim is
Cancelled, the position is unclaimed, the caller owns the position; the refund
is the position's total stake, which must be positive; it is withdrawn from
escrow and the position marked claimed. -/
def claim_refund (claim : Claim) (position : Position) (caller : Nat) :
    Except MoveErr (Claim × Position × Nat) :=
  if claim.status ≠ .Cancelled then .error .EInvalidClaim
  else if position.claimed then .error .EAlreadyClaimed
  else if position.user ≠ caller then .error .EInvalidClaim
  else if U64_MOD ≤ position.yes_amount + position.no_amount then .error .EArithOverflow
  else if position.yes_amount + position.no_amount = 0 then .error .ENoWinnings
  else
    match withdraw_escrow claim (position.yes_amount + position.no_amount) with
    | .error e => .error e
    | .ok (claim', coin) =>
      .ok (claim', { position with claimed := true }, coin)

/-- MeasurementInfo record of `truth_markets::attestation`. -/
structure MeasurementInfo where
  description : String
  added_at : Nat
  active : Bool
deriving DecidableEq, Repr

/-- MeasurementRegistry shared object of `truth_markets::attestation`; the
`Table<vector<u8>, MeasurementInfo>` is an association list keyed by the
32-byte measurement. -/
structure MeasurementRegistry where
  measurements : List (List Nat × MeasurementInfo)
  admin : Nat
deriving DecidableEq, Repr

/-- Measurement registry produced by `attestation::init`. -/
def initMeasurementRegistry (publisher : Nat) : MeasurementRegistry :=
  { measurements := [], admin := publisher }

/-- Embedding of `attestation::whitelist_measurement`. Checks, in source
order: the caller is the admin, the measurement is exactly 32 bytes; then
`table::add` inserts the info (active, timestamped) and aborts when the
measurement is already present. -/
def whitelist_measurement (registry : MeasurementRegistry) (measurement : List Nat)
    (description : String) (now : Nat) (caller : Nat) : Except MoveErr MeasurementRegistry :=
  if registry.admin ≠ caller then .error .EUnauthorized
  else if measurement.length ≠ 32 then .error .EInvalidMeasurement
  else if (lookupA registry.measurements measurement).isSome then .error .EFieldAlreadyExists
  else
    .ok { registry with measurements :=
      (measurement, { description := description, added_at := now, active := true })
        :: registry.measurements }

/-- Embedding of `attestation::revoke_measurement`: admin only;
`table::borrow_mut` aborts when the measurement is absent; sets the entry
inactive. -/
def revoke_measurement (registry : MeasurementRegistry) (measurement : List Nat)
    (caller : Nat) : Except MoveErr MeasurementRegistry :=
  if registry.admin ≠ caller then .error .EUnauthorized
  else
    match lookupA registry.measurements measurement with
    | none => .error .EFieldDoesNotExist
    | some info =>
      let info' : MeasurementInfo := { info with active := false }
      .ok { registry with measurements := updateA registry.measurements measurement info' }

/-- Embedding of `attestation::is_measurement_whitelisted`: present and
active. -/
def is_measurement_whitelisted (registry : MeasurementRegistry)
    (measurement : List Nat) : Bool :=
  match lookupA registry.measurements measurement with
  | none => false
  | some info => info.active

/-- Embedding of `attestation::submit_attested_resolution`. The attestation
must be at least 32 bytes; its first 32 bytes are taken as the measurement,
which must be whitelisted and active; only then is
`claim_registry::resolve_claim` invoked. -/
def submit_attested_resolution (registry : MeasurementRegistry) (claim : Claim)
    (result : Bool) (result_blob_id : String) (attestation : List Nat) (now : Nat) :
    Except MoveErr Claim :=
  if attestation.length < 32 then .error .EInvalidAttestation
  else
    match lookupA registry.measurements (attestation.take 32) with
    | none => .error .EMeasurementNotWhitelisted
    | some info =>
      if ¬ info.active then .error .EMeasurementNotWhitelisted
      else resolve_claim claim result result_blob_id (attestation.take 32) now

/-- Operations of `claim_registry` that touch a single claim's escrow or
stake totals, used to state the escrow accounting invariant over all
reachable claim states. -/
inductive COp where
  | AddStake (amount : Nat) (is_yes : Bool)
  | Resolve (result : Bool) (result_blob_id : String) (resolver_measurement : List Nat) (now : Nat)
  | Cancel (reason : String) (caller : Nat)
  | Withdraw (amount : Nat)

/-- Application of one claim operation, threading the running sum of all
successfully withdrawn amounts. -/
def capply (claim : Claim) (wsum : Nat) : COp → Except MoveErr (Claim × Nat)
  | .AddStake amount is_yes =>
    (add_stake claim amount is_yes).map fun c => (c, wsum)
  | .Resolve r b m now =>
    (resolve_claim claim r b m now).map fun c => (c, wsum)
  | .Cancel reason caller =>
    (cancel_claim claim reason caller).map fun c => (c, wsum)
  | .Withdraw amount =>
    (withdraw_escrow claim amount).map fun pr => (pr.1, wsum + pr.2)

/-- Run of a sequence of claim operations; aborted operations abort the run
(an aborted Sui transaction has no effect, so the states reached by runs in
which every operation succeeds are exactly the reachable claim states). -/
def crun (claim : Claim) (wsum : Nat) : List COp → Except MoveErr (Claim × Nat)
  | [] => .ok (claim, wsum)
  | op :: rest =>
    match capply claim wsum op with
    | .error e => .error e
    | .ok (c, w) => crun c w rest

/-- Global on-chain state of the settlement core: the shared ClaimRegistry,
and the Claim, MarketState and Position objects indexed by object id.
`next_id` models the freshness of ids minted by `object::new`. -/
structure World where
  registry : ClaimRegistry
  claims : List (Nat × Claim)
  markets : List (Nat × MarketState)
  positions : List (Nat × Position)
  next_id : Nat

/-- Initial world right after publication: empty stores. -/
def initWorld (publisher : Nat) : World :=
  { registry := initRegistry publisher
    claims := []
    markets := []
    positions := []
    next_id := 0 }

/-- Transactions of the settlement core at world level. `Resolve` stands for
any path that reaches `claim_registry::resolve_claim` (in particular
`attestation::submit_attested_resolution`, with an arbitrary measurement:
a superset of what the whitelist admits, which is sound for safety
properties). -/
inductive WOp where
  | CreateClaim (spec_blob_id evidence_blob_id description : String)
      (deadline creator_fee_bps creator now : Nat)
  | CreateMarket (claim_id : Nat)
  | Stake (claim_id market_id amount : Nat) (is_yes : Bool) (user : Nat)
  | Resolve (claim_id : Nat) (result : Bool) (result_blob_id : String)
      (resolver_measurement : List Nat) (now : Nat)
  | Cancel (claim_id : Nat) (reason : String) (caller : Nat)
  | Winnings (claim_id position_id caller : Nat)
  | Refund (claim_id position_id caller : Nat)
  | UpdateProtocolFee (new_fee_bps caller : Nat)

/-- Lookup of an on-chain object by id: a transaction naming a missing id
cannot execute at all, modelled as a failing step. -/
def getObj {β : Type} (l : List (Nat × β)) (k : Nat) : Except MoveErr β :=
  match lookupA l k with
  | none => .error .EMissingObject
  | some v => .ok v

/-- One world transition: looks up the objects a transaction names, runs the
corresponding module entry function and commits its updates. -/
def stepW (w : World) : WOp → Except MoveErr World
  | .CreateClaim s e d deadline fee creator now =>
    (create_claim w.registry s e d deadline fee creator now).map fun rc =>
      { w with registry := rc.1
               claims := (w.next_id, rc.2) :: w.claims
               next_id := w.next_id + 1 }
  | .CreateMarket claim_id =>
    .ok { w with markets := (w.next_id, create_market claim_id) :: w.markets
                 next_id := w.next_id + 1 }
  | .Stake cid mid amount is_yes user =>
    (getObj w.claims cid).bind fun c =>
    (getObj w.markets mid).bind fun m =>
    (stake c m cid amount is_yes user w.next_id).map fun r =>
      { w with claims := updateA w.claims cid r.1
               markets := updateA w.markets mid r.2.1
               positions := (w.next_id, r.2.2) :: w.positions
               next_id := w.next_id + 1 }
  | .Resolve cid r b meas now =>
    (getObj w.claims cid).bind fun c =>
    (resolve_claim c r b meas now).map fun c' =>
      { w with claims := updateA w.claims cid c' }
  | .Cancel cid reason caller =>
    (getObj w.claims cid).bind fun c =>
    (cancel_claim c reason caller).map fun c' =>
      { w with claims := updateA w.claims cid c' }
  | .Winnings cid pid caller =>
    (getObj w.claims cid).bind fun c =>
    (getObj w.positions pid).bind fun p =>
    (claim_winnings c p caller).map fun r =>
      { w with claims := updateA w.claims cid r.1
               positions := updateA w.positions pid r.2.1 }
  | .Refund cid pid caller =>
    (getObj w.claims cid).bind fun c =>
    (getObj w.positions pid).bind fun p =>
    (claim_refund c p caller).map fun r =>
      { w with claims := updateA w.claims cid r.1
               positions := updateA w.positions pid r.2.1 }
  | .UpdateProtocolFee f caller =>
    (require (w.registry.protocol_fee_recipient = caller) .EUnauthorized).map fun _ =>
      { w with registry := { w.registry with default_protocol_fee_bps := f } }

/-- Run of a sequence of world transactions; an aborted transaction aborts
the run (it would leave the world unchanged, so all-success runs reach
exactly the reachable worlds). -/
def runW (w : World) : List WOp → Except MoveErr World
  | [] => .ok w
  | op :: rest =>
    match stepW w op with
    | .error e => .error e
    | .ok w' => runW w' rest

/-- Reachability of a world state from publication. -/
def ReachableW (w : World) : Prop :=
  ∃ publisher ops, runW (initWorld publisher) ops = .ok w

/-- Resolved example claim of the payout example: 600 staked YES, 400 NO,
result YES, 100 bps creator fee + 100 bps protocol fee. -/
def exPayoutClaim : Claim :=
  { creator := 0
    spec_blob_id := "s"
    evidence_blob_id := "e"
    description := "d"
    deadline := 10
    status := .Resolved
    result := some true
    result_blob_id := some "r"
    resolver_measurement := some (List.replicate 32 0)
    yes_stake := 600
    no_stake := 400
    creator_fee_bps := 100
    protocol_fee_bps := 100
    escrow := 1000
    created_at := 0
    resolved_at := some 10 }

/-- Winner position of the payout example: 100 staked on YES by user 1. -/
def exPayoutPos : Position :=
  { claim_id := 0, user := 1, yes_amount := 100, no_amount := 0, claimed := false }

/-- Open example claim with creator 5 and no stakes (cancellable). -/
def exOpenClaim : Claim :=
  { creator := 5
    spec_blob_id := "s"
    evidence_blob_id := "e"
    description := "d"
    deadline := 10
    status := .Open
    result := none
    result_blob_id := none
    resolver_measurement := none
    yes_stake := 0
    no_stake := 0
    creator_fee_bps := 100
    protocol_fee_bps := 100
    escrow := 0
    created_at := 0
    resolved_at := none }

/-- Open example claim carrying a 5-unit YES stake by user 1. -/
def exStakedClaim : Claim :=
  { exOpenClaim with yes_stake := 5, escrow := 5 }

/-- Market of `exStakedClaim` in which user 1 already holds position 0. -/
def exStakedMarket : MarketState :=
  { claim_id := 0, positions := [(1, 0)], total_positions := 1 }

/-- Position that is already claimed (100 on YES by user 1). -/
def exClaimedPos : Position :=
  { claim_id := 0, user := 1, yes_amount := 100, no_amount := 0, claimed := true }

/-- Example 32-byte resolver fingerprint. -/
def exFp : List Nat := List.replicate 32 7

/-- Measurement registry (admin 0) already holding `exFp`, revoked. -/
def exRevokedRegistry : MeasurementRegistry :=
  { measurements := [(exFp, { description := "m", added_at := 0, active := false })]
    admin := 0 }

/-- Over-fee example: position of the winner (100 on YES by user 1) on a
claim whose creator fee is 20000 bps. -/
def exOverfeePos : Position :=
  { claim_id := 0, user := 1, yes_amount := 100, no_amount := 0, claimed := false }

/-- Open example claim carrying stakes (5 YES) together with an already
claimed position for it: the claimed flag can reach this configuration
through `claim_winnings` against a different, resolved claim, since the
source never compares `position.claim_id` with the passed claim. -/
def exOpenStakedClaim : Claim :=
  { exOpenClaim with yes_stake := 5, escrow := 5 }

/-- Chain of source operations exhibiting the unchecked creator fee: create a
claim with `creator_fee_bps = 20000`, stake 600 on YES and 400 on NO, resolve
to YES after the deadline, then let the winner of `exOverfeePos` claim. -/
def overfee_scenario : Except MoveErr (Claim × Position × Nat) :=
  match create_claim (initRegistry 0) "s" "e" "d" 100 20000 0 0 with
  | .error e => .error e
  | .ok (_, c0) =>
    match add_stake c0 600 true with
    | .error e => .error e
    | .ok c1 =>
      match add_stake c1 400 false with
      | .error e => .error e
      | .ok c2 =>
        match resolve_claim c2 true "rb" exFp 100 with
        | .error e => .error e
        | .ok c3 => claim_winnings c3 exOverfeePos 1

/-- Claim state reached from the fresh `exOpenClaim` by staking 5 on YES and
then withdrawing 3 from escrow. -/
def exC2End : Claim :=
  { exOpenClaim with yes_stake := 5, escrow := 2 }

/-- Measurement registry reached by registering `exFp` on the freshly
published registry (admin 0) at time 3. -/
def exFpRegistry : MeasurementRegistry :=
  { measurements := [(exFp, { description := "d", added_at := 3, active := true })]
    admin := 0 }

/-- Escrow accounting invariant of one claim together with the running sum of
its successful withdrawals. -/
def EscrowInv (claim : Claim) (wsum : Nat) : Prop :=
  claim.escrow + wsum = claim.yes_stake + claim.no_stake

/-- Per-claim part of the reachable-world invariant: a cancelled claim has
zero stake totals, and the escrow never exceeds the sum of the totals. -/
def ClaimInv (c : Claim) : Prop :=
  (c.status = .Cancelled → c.yes_stake = 0 ∧ c.no_stake = 0) ∧
  c.escrow ≤ c.yes_stake + c.no_stake

/-- Reachable-world invariant: every stored claim satisfies `ClaimInv` and
has an id below the freshness counter, and every stored position references a
claim id below the counter and stakes no more on a side than that claim's
side total. -/
def WInv (w : World) : Prop :=
  (∀ cid c, lookupA w.claims cid = some c → cid < w.next_id ∧ ClaimInv c) ∧
  (∀ pid p, lookupA w.positions pid = some p →
    p.claim_id < w.next_id ∧
    ∀ c, lookupA w.claims p.claim_id = some c →
      p.yes_amount ≤ c.yes_stake ∧ p.no_amount ≤ c.no_stake)

theorem lookupA_nil {α : Type} [DecidableEq α] {β : Type} (k : α) :
    lookupA ([] : List (α × β)) k = none := rfl

theorem lookupA_updateA_ne {α : Type} [DecidableEq α] {β : Type}
    (l : List (α × β)) (k k' : α) (v : β) (h : k' ≠ k) :
    lookupA (updateA l k v) k' = lookupA l k' := by
  induction l with
  | nil => rfl
  | cons hd tl ih =>
    obtain ⟨k0, v0⟩ := hd
    simp only [updateA]
    split
    · rename_i h0
      subst h0
      simp only [lookupA]
      rw [if_neg (fun hk => h hk.symm), if_neg (fun hk => h hk.symm)]
    · rename_i h0
      simp only [lookupA]
      by_cases h1 : k0 = k'
      · rw [if_pos h1, if_pos h1]
      · rw [if_neg h1, if_neg h1]
        exact ih

theorem lookupA_updateA_self {α : Type} [DecidableEq α] {β : Type}
    (l : List (α × β)) (k : α) (v v0 : β) (h : lookupA l k = some v0) :
    lookupA (updateA l k v) k = some v := by
  induction l with
  | nil => simp [lookupA] at h
  | cons hd tl ih =>
    obtain ⟨k1, v1⟩ := hd
    simp only [updateA]
    split
    · rename_i h0
      subst h0
      simp [lookupA]
    · rename_i h0
      simp only [lookupA, if_neg h0] at h ⊢
      exact ih h

theorem updateA_of_lookupA_none {α : Type} [DecidableEq α] {β : Type}
    (l : List (α × β)) (k : α) (v : β) (h : lookupA l k = none) :
    updateA l k v = l := by
  induction l with
  | nil => rfl
  | cons hd tl ih =>
    obtain ⟨k1, v1⟩ := hd
    by_cases h0 : k1 = k
    · simp [lookupA, if_pos h0] at h
    · simp only [lookupA, if_neg h0] at h
      simp only [updateA, if_neg h0]
      rw [ih h]

theorem add_stake_ok_spec {c : Claim} {a : Nat} {y : Bool} {c' : Claim}
    (h : add_stake c a y = .ok c') :
    c.status = .Open ∧ c'.status = .Open ∧ c'.escrow = c.escrow + a ∧
    c'.creator = c.creator ∧ c'.deadline = c.deadline ∧ c'.result = c.result ∧
    ((y = true ∧ c'.yes_stake = c.yes_stake + a ∧ c'.no_stake = c.no_stake) ∨
     (y = false ∧ c'.yes_stake = c.yes_stake ∧ c'.no_stake = c.no_stake + a)) := by
  unfold add_stake at h
  split at h
  · simp at h
  · split at h
    · simp at h
    · split at h
      · split at h
        · simp at h
        · rename_i hst hov1 hy hov2
          obtain rfl := (Except.ok.inj h)
          have hopen : c.status = .Open := not_not.mp hst
          exact ⟨hopen, hopen, rfl, rfl, rfl, rfl, Or.inl ⟨hy, rfl, rfl⟩⟩
      · split at h
        · simp at h
        · rename_i hst hov1 hy hov2
          obtain rfl := (Except.ok.inj h)
          have hopen : c.status = .Open := not_not.mp hst
          have hyf : y = false := by
            revert hy
            cases y <;> simp
          exact ⟨hopen, hopen, rfl, rfl, rfl, rfl, Or.inr ⟨hyf, rfl, rfl⟩⟩

theorem resolve_claim_ok_spec {c : Claim} {r : Bool} {b : String} {m : List Nat}
    {now : Nat} {c' : Claim} (h : resolve_claim c r b m now = .ok c') :
    c.deadline ≤ now ∧ (c.status = .Open ∨ c.status = .Resolving) ∧
    c' = { c with status := .Resolved, result := some r, result_blob_id := some b,
                  resolver_measurement := some m, resolved_at := some now } := by
  unfold resolve_claim at h
  split at h
  · simp at h
  · split at h
    · rename_i hdl hst
      obtain rfl := (Except.ok.inj h)
      exact ⟨by omega, hst, rfl⟩
    · simp at h

theorem cancel_claim_ok_spec {c : Claim} {reason : String} {caller : Nat} {c' : Claim}
    (h : cancel_claim c reason caller = .ok c') :
    c.creator = caller ∧ c.yes_stake = 0 ∧ c.no_stake = 0 ∧ c.status = .Open ∧
    c' = { c with status := .Cancelled } := by
  unfold cancel_claim at h
  split at h
  · simp at h
  · split at h
    · simp at h
    · split at h
      · simp at h
      · rename_i hcr hz hst
        obtain rfl := (Except.ok.inj h)
        refine ⟨not_not.mp hcr, ?_, ?_, not_not.mp hst, rfl⟩ <;> tauto

theorem withdraw_escrow_ok_spec {c : Claim} {a : Nat} {c' : Claim} {coin : Nat}
    (h : withdraw_escrow c a = .ok (c', coin)) :
    a ≤ c.escrow ∧ coin = a ∧ c' = { c with escrow := c.escrow - a } := by
  unfold withdraw_escrow at h
  split at h
  · simp at h
  · rename_i hle
    obtain h' := (Except.ok.inj h)
    injection h' with ha hb
    subst ha
    subst hb
    exact ⟨by omega, rfl, rfl⟩

theorem create_claim_ok_spec {reg : ClaimRegistry} {s e d : String}
    {deadline fee creator now : Nat} {reg' : ClaimRegistry} {c : Claim}
    (h : create_claim reg s e d deadline fee creator now = .ok (reg', c)) :
    now < deadline ∧ c.status = .Open ∧ c.yes_stake = 0 ∧ c.no_stake = 0 ∧
    c.escrow = 0 ∧ c.creator_fee_bps = fee ∧ c.deadline = deadline := by
  unfold create_claim at h
  split at h
  · simp at h
  · split at h
    · simp at h
    · rename_i hdl hov
      obtain h' := (Except.ok.inj h)
      injection h' with ha hb
      subst hb
      exact ⟨by omega, rfl, rfl, rfl, rfl, rfl, rfl⟩

theorem stake_ok_spec {c : Claim} {m : MarketState} {cid a : Nat} {y : Bool}
    {user fid : Nat} {c' : Claim} {m' : MarketState} {pos : Position}
    (h : stake c m cid a y user fid = .ok (c', m', pos)) :
    0 < a ∧ c.status = .Open ∧ add_stake c a y = .ok c' ∧
    pos.claim_id = cid ∧ pos.user = user ∧ pos.claimed = false ∧
    pos.yes_amount = (if y then a else 0) ∧ pos.no_amount = (if y then 0 else a) ∧
    lookupA m.positions user = none := by
  unfold stake at h
  split at h
  · simp at h
  split at h
  · simp at h
  split at h
  · simp at h
  rename_i ha hst claim0 hadd
  split at h <;> rename_i hy
  · subst hy
    split at h
    · simp at h
    split at h
    · simp at h
    rename_i hdup hov
    rw [Except.ok.injEq, Prod.mk.injEq, Prod.mk.injEq] at h
    obtain ⟨h1, h2, h3⟩ := h
    subst h1
    subst h3
    refine ⟨by omega, not_not.mp ha, hadd, rfl, rfl, rfl, by simp, by simp, ?_⟩
    cases hlk : lookupA m.positions user with
    | none => rfl
    | some v => rw [hlk] at hdup; simp at hdup
  · have hyf : y = false := by revert hy; cases y <;> simp
    subst hyf
    split at h
    · simp at h
    split at h
    · simp at h
    rename_i hdup hov
    rw [Except.ok.injEq, Prod.mk.injEq, Prod.mk.injEq] at h
    obtain ⟨h1, h2, h3⟩ := h
    subst h1
    subst h3
    refine ⟨by omega, not_not.mp ha, hadd, rfl, rfl, rfl, by simp, by simp, ?_⟩
    cases hlk : lookupA m.positions user with
    | none => rfl
    | some v => rw [hlk] at hdup; simp at hdup

theorem bindE_ok {α β : Type} {x : Except MoveErr α} {f : α → Except MoveErr β} {v : β}
    (h : x.bind f = .ok v) : ∃ a, x = .ok a ∧ f a = .ok v := by
  cases x with
  | error e => exact Except.noConfusion h
  | ok a => exact ⟨a, rfl, h⟩

theorem require_ok {b : Prop} [Decidable b] {e : MoveErr} {u : Unit}
    (h : require b e = .ok u) : b := by
  unfold require at h
  split at h
  · assumption
  · exact Except.noConfusion h

theorem u64add_ok {a b v : Nat} (h : u64add a b = .ok v) :
    v = a + b ∧ a + b < U64_MOD := by
  unfold u64add at h
  split at h
  · exact Except.noConfusion h
  · exact ⟨(Except.ok.inj h).symm, by omega⟩

theorem u64mul_ok {a b v : Nat} (h : u64mul a b = .ok v) :
    v = a * b ∧ a * b < U64_MOD := by
  unfold u64mul at h
  split at h
  · exact Except.noConfusion h
  · exact ⟨(Except.ok.inj h).symm, by omega⟩

theorem u64sub_ok {a b v : Nat} (h : u64sub a b = .ok v) :
    v = a - b ∧ b ≤ a := by
  unfold u64sub at h
  split at h
  · exact Except.noConfusion h
  · exact ⟨(Except.ok.inj h).symm, by omega⟩

theorem u64div_ok {a b v : Nat} (h : u64div a b = .ok v) :
    v = a / b ∧ b ≠ 0 := by
  unfold u64div at h
  split at h
  · exact Except.noConfusion h
  · exact ⟨(Except.ok.inj h).symm, by assumption⟩

theorem borrow_result_ok {c : Claim} {won : Bool} (h : borrow_result c = .ok won) :
    c.result = some won := by
  unfold borrow_result at h
  cases hres : c.result with
  | none => rw [hres] at h; exact Except.noConfusion h
  | some b => rw [hres] at h; rw [Except.ok.inj h]

theorem claim_winnings_ok_spec {c : Claim} {p : Position} {caller : Nat}
    {c' : Claim} {p' : Position} {coin : Nat}
    (h : claim_winnings c p caller = .ok (c', p', coin)) :
    c.status = .Resolved ∧ p.claimed = false ∧ p.user = caller ∧
    coin ≤ c.escrow ∧ c' = { c with escrow := c.escrow - coin } ∧
    p' = { p with claimed := true } ∧
    ∃ won, c.result = some won ∧ coin = w_total_payout won p c := by
  unfold claim_winnings at h
  obtain ⟨u1, hg1, h⟩ := bindE_ok h
  obtain ⟨u2, hg2, h⟩ := bindE_ok h
  obtain ⟨u3, hg3, h⟩ := bindE_ok h
  obtain ⟨won, hbr, h⟩ := bindE_ok h
  obtain ⟨u4, hg4, h⟩ := bindE_ok h
  obtain ⟨ts, hts, h⟩ := bindE_ok h
  obtain ⟨tf, htf, h⟩ := bindE_ok h
  obtain ⟨sn, hsn, h⟩ := bindE_ok h
  obtain ⟨us, husq, h⟩ := bindE_ok h
  obtain ⟨wn, hwn, h⟩ := bindE_ok h
  obtain ⟨fn, hfn, h⟩ := bindE_ok h
  obtain ⟨nw, hnw, h⟩ := bindE_ok h
  obtain ⟨tp, htp, h⟩ := bindE_ok h
  obtain ⟨pr, hwd, h⟩ := bindE_ok h
  obtain ⟨c0, coin0⟩ := pr
  have h2 : (Except.ok (c0, { p with claimed := true }, coin0) :
      Except MoveErr (Claim × Position × Nat)) = .ok (c', p', coin) := h
  rw [Except.ok.injEq, Prod.mk.injEq, Prod.mk.injEq] at h2
  obtain ⟨hc, hp, hcoin⟩ := h2
  subst hc
  subst hp
  subst hcoin
  obtain ⟨hle, hcoineq, hceq⟩ := withdraw_escrow_ok_spec hwd
  subst hcoineq
  refine ⟨require_ok hg1, require_ok hg2, require_ok hg3, hle, hceq, rfl,
    won, borrow_result_ok hbr, ?_⟩
  obtain ⟨htp1, _⟩ := u64add_ok htp
  obtain ⟨hnw1, hnw2⟩ := u64sub_ok hnw
  obtain ⟨hfn1, _⟩ := u64mul_ok hfn
  obtain ⟨hwn1, _⟩ := u64mul_ok hwn
  obtain ⟨hus1, husnz⟩ := u64div_ok husq
  obtain ⟨hsn1, _⟩ := u64mul_ok hsn
  obtain ⟨htf1, _⟩ := u64add_ok htf
  subst htp1
  subst hnw1
  subst hfn1
  subst hwn1
  subst hus1
  subst hsn1
  subst htf1
  rfl

/-- C1: for every resolved claim and every eligible, successful call to
`claim_winnings` (claim Resolved, position unclaimed, caller the owner,
positive winning-side stake — all of which the source checks before paying),
the paid-out amount equals `total_payout = user_stake + net_winnings`
computed with truncating integer division at each step:
`user_share_bps = floor(user_stake*10000/winning_total)`,
`winnings_from_losers = floor(losing_total*user_share_bps/10000)`,
`fees = floor(winnings_from_losers*(creator_fee_bps+protocol_fee_bps)/10000)`,
`net_winnings = winnings_from_losers - fees`; in particular with
`yes_stake = 600`, `no_stake = 400`, result YES, `user_stake = 100`, total
fee 200 bps, the payout is exactly 165 (see the witness). -/
theorem claim_winnings_pays_formula (c : Claim) (p : Position) (caller : Nat)
    (won : Bool) (c' : Claim) (p' : Position) (payout : Nat)
    (hres : c.result = some won)
    (h : claim_winnings c p caller = .ok (c', p', payout)) :
    payout = payout_formula won p c := by
  obtain ⟨_, _, _, _, _, _, won', hres', hp⟩ := claim_winnings_ok_spec h
  have hww : won' = won := by
    rw [hres] at hres'
    exact (Option.some.inj hres').symm
  subst hww
  exact hp

/-- Witness for C1: the spec's worked example. The winner of 100 on YES out
of 600 YES vs 400 NO with 200 bps total fee is paid exactly 165. -/
theorem claim_winnings_pays_formula_witness :
    claim_winnings exPayoutClaim exPayoutPos 1 =
      .ok ({ exPayoutClaim with escrow := 835 }, { exPayoutPos with claimed := true }, 165) ∧
    (165 : Nat) = payout_formula true exPayoutPos exPayoutClaim :=
  ⟨rfl, claim_winnings_pays_formula exPayoutClaim exPayoutPos 1 true
    { exPayoutClaim with escrow := 835 } { exPayoutPos with claimed := true } 165 rfl rfl⟩

/-- C3: `cancel_claim` succeeds if and only if the caller is the creator, the
status is Open and both stake totals are zero; on success it sets status
Cancelled (and changes nothing else); any other call aborts — with
Unauthorized for a non-creator caller and InvalidStatus otherwise — and an
abort leaves the claim unchanged. -/
theorem cancel_claim_spec (c : Claim) (reason : String) (caller : Nat) :
    (cancel_claim c reason caller = .ok { c with status := .Cancelled } ↔
      caller = c.creator ∧ c.status = .Open ∧ c.yes_stake = 0 ∧ c.no_stake = 0) ∧
    (∀ c'', cancel_claim c reason caller = .ok c'' → c'' = { c with status := .Cancelled }) ∧
    (c.creator ≠ caller → cancel_claim c reason caller = .error .EUnauthorized) ∧
    (c.creator = caller → ¬ (c.status = .Open ∧ c.yes_stake = 0 ∧ c.no_stake = 0) →
      cancel_claim c reason caller = .error .EInvalidStatus) := by
  refine ⟨⟨?_, ?_⟩, ?_, ?_, ?_⟩
  · intro h
    obtain ⟨h1, h2, h3, h4, _⟩ := cancel_claim_ok_spec h
    exact ⟨h1.symm, h4, h2, h3⟩
  · rintro ⟨h1, h2, h3, h4⟩
    unfold cancel_claim
    rw [if_neg (fun hne => hne h1.symm), if_neg (not_not_intro ⟨h3, h4⟩),
      if_neg (not_not_intro h2)]
  · intro c'' h
    exact (cancel_claim_ok_spec h).2.2.2.2
  · intro h
    unfold cancel_claim
    rw [if_pos h]
  · intro h1 h2
    unfold cancel_claim
    rw [if_neg (not_not_intro h1)]
    by_cases hz : c.yes_stake = 0 ∧ c.no_stake = 0
    · rw [if_neg (not_not_intro hz)]
      by_cases hst : c.status = .Open
      · exact absurd ⟨hst, hz.1, hz.2⟩ h2
      · rw [if_pos hst]
    · rw [if_pos hz]

/-- Witness for C3: the creator cancels an Open claim with no stakes; the
result is the same claim with status Cancelled. -/
theorem cancel_claim_spec_witness :
    cancel_claim exOpenClaim "r" 5 = .ok { exOpenClaim with status := .Cancelled } :=
  (cancel_claim_spec exOpenClaim "r" 5).1.mpr ⟨rfl, rfl, rfl, rfl⟩

/-- C4: `resolve_claim` fails with DeadlineNotReached whenever
`now < deadline`, for any status; when `now ≥ deadline` and the status is
Open or Resolving it succeeds, recording result, result blob, resolver
measurement and `resolved_at = now` and setting status Resolved; when
`now ≥ deadline` and the status is Resolved or Cancelled it fails with
AlreadyResolved (and an abort changes nothing). -/
theorem resolve_claim_spec (c : Claim) (r : Bool) (rb : String) (m : List Nat) (now : Nat) :
    (now < c.deadline → resolve_claim c r rb m now = .error .EDeadlineNotReached) ∧
    (c.deadline ≤ now → (c.status = .Open ∨ c.status = .Resolving) →
      resolve_claim c r rb m now =
        .ok { c with status := .Resolved, result := some r, result_blob_id := some rb,
                     resolver_measurement := some m, resolved_at := some now }) ∧
    (c.deadline ≤ now → (c.status = .Resolved ∨ c.status = .Cancelled) →
      resolve_claim c r rb m now = .error .EClaimAlreadyResolved) := by
  refine ⟨?_, ?_, ?_⟩
  · intro h
    unfold resolve_claim
    rw [if_pos h]
  · intro h1 h2
    unfold resolve_claim
    rw [if_neg (by omega), if_pos h2]
  · intro h1 h2
    unfold resolve_claim
    rw [if_neg (by omega), if_neg (by rcases h2 with h | h <;> simp [h])]

/-- Witness for C4: resolving an Open claim after its deadline succeeds and
records the result. -/
theorem resolve_claim_spec_witness :
    resolve_claim exOpenClaim true "rb" exFp 50 =
      .ok { exOpenClaim with status := .Resolved, result := some true,
                             result_blob_id := some "rb",
                             resolver_measurement := some exFp,
                             resolved_at := some 50 } :=
  (resolve_claim_spec exOpenClaim true "rb" exFp 50).2.1 (by decide) (Or.inl rfl)

/-- C5 (code bug): the spec — and the source's own comment, "For MVP, we'll
create a new position each time (simplified)" — say a repeat stake by the
same owner on the same Open claim succeeds and creates a fresh position
record; but the source then calls `table::add` on the market's positions
table with the owner's address as key, and `sui::table::add` aborts when the
key is already present, so a repeat stake aborts instead. Here user 1, who
already holds position 0 on the Open claim, stakes 3 more on NO and the call
aborts with the duplicate-field error. -/
theorem stake_repeat_aborts :
    exStakedClaim.status = Status.Open ∧
    lookupA exStakedMarket.positions 1 = some 0 ∧
    stake exStakedClaim exStakedMarket 0 3 false 1 1 = .error .EFieldAlreadyExists :=
  ⟨rfl, rfl, rfl⟩

/-- Counterexample for C6: a position with `claimed = true` paired with a
claim that is not Resolved fails with ClaimNotResolved, not AlreadyClaimed —
the source checks `is_resolved` before `!position.claimed`. The pairing is
reachable because `claim_winnings` never compares `position.claim_id` with
the passed claim, so a position can be marked claimed against a different,
resolved claim while its own claim is still Open. -/
theorem claim_winnings_claimed_not_alreadyclaimed :
    exClaimedPos.claimed = true ∧
    claim_winnings exOpenStakedClaim exClaimedPos 1 = .error .EClaimNotResolved ∧
    MoveErr.EClaimNotResolved ≠ MoveErr.EAlreadyClaimed :=
  ⟨rfl, rfl, by decide⟩

/-- C6 (amended): every call to `claim_winnings` on a position with
`claimed = true` fails and moves no funds (an abort leaves escrow, stake
totals and the position unchanged); the error is AlreadyClaimed whenever the
passed claim is Resolved — in particular on any repeat call after a
successful claim, since a Resolved claim stays Resolved — and
ClaimNotResolved otherwise. -/
theorem claim_winnings_claimed_aborts (c : Claim) (p : Position) (caller : Nat)
    (h : p.claimed = true) :
    (∃ e, claim_winnings c p caller = .error e) ∧
    (c.status = .Resolved → claim_winnings c p caller = .error .EAlreadyClaimed) := by
  have hres : c.status = .Resolved →
      claim_winnings c p caller = .error .EAlreadyClaimed := by
    intro hs
    unfold claim_winnings require
    rw [if_pos hs, if_neg (by simp [h])]
    rfl
  constructor
  · by_cases hs : c.status = .Resolved
    · exact ⟨.EAlreadyClaimed, hres hs⟩
    · refine ⟨.EClaimNotResolved, ?_⟩
      unfold claim_winnings require
      rw [if_neg hs]
      rfl
  · exact hres

/-- Witness for C6 (amended): a second call on the already-claimed winner
position of the resolved payout claim fails with AlreadyClaimed. -/
theorem claim_winnings_claimed_aborts_witness :
    claim_winnings exPayoutClaim exClaimedPos 1 = .error .EAlreadyClaimed :=
  (claim_winnings_claimed_aborts exPayoutClaim exClaimedPos 1 rfl).2 rfl

/-- C7: `submit_attested_resolution` with a resolver fingerprint (the first
32 bytes of the attestation) that is not registered in the measurement
whitelist, or registered but inactive, fails with MeasurementNotWhitelisted;
the abort leaves the claim unchanged and `resolve_claim` is never invoked
(the whitelist check precedes the call in the source). -/
theorem submit_resolution_not_whitelisted (reg : MeasurementRegistry) (c : Claim)
    (r : Bool) (rb : String) (att : List Nat) (now : Nat)
    (hlen : 32 ≤ att.length)
    (hwl : is_measurement_whitelisted reg (att.take 32) = false) :
    submit_attested_resolution reg c r rb att now = .error .EMeasurementNotWhitelisted := by
  unfold submit_attested_resolution
  rw [if_neg (by omega)]
  split
  · rfl
  · rename_i info hlk
    have hact : info.active = false := by
      unfold is_measurement_whitelisted at hwl
      rw [hlk] at hwl
      exact hwl
    rw [if_pos (by simp [hact])]

/-- Witness for C7: submitting against a freshly published (empty)
measurement registry fails closed. -/
theorem submit_resolution_not_whitelisted_witness :
    submit_attested_resolution (initMeasurementRegistry 0) exOpenClaim true "rb"
      (List.replicate 32 1) 50 = .error .EMeasurementNotWhitelisted :=
  submit_resolution_not_whitelisted (initMeasurementRegistry 0) exOpenClaim true "rb"
    (List.replicate 32 1) 50 (by decide) rfl

/-- Counterexample for C8: with an authorized administrator and a 32-byte
fingerprint that is already present in the registry (here: present but
revoked), `whitelist_measurement` does not succeed — `table::add` aborts with
the duplicate-field error — refuting "with a 32-byte fingerprint it
succeeds". -/
theorem whitelist_existing_fp_aborts :
    exFp.length = 32 ∧ exRevokedRegistry.admin = 0 ∧
    whitelist_measurement exRevokedRegistry exFp "d" 0 0 = .error .EFieldAlreadyExists :=
  ⟨rfl, rfl, rfl⟩

/-- C8 (amended): for an authorized administrator, `whitelist_measurement`
fails with InvalidFingerprintLength (source: EInvalidMeasurement) if and only
if the fingerprint is not exactly 32 bytes; with a 32-byte fingerprint that
is not already present in the registry it succeeds and
`is_measurement_whitelisted` returns true immediately afterwards (a 32-byte
fingerprint already present — even a revoked one — aborts with the
duplicate-field error of `table::add` instead). -/
theorem whitelist_measurement_spec (reg : MeasurementRegistry) (fp : List Nat)
    (d : String) (now caller : Nat) (hadmin : caller = reg.admin) :
    (whitelist_measurement reg fp d now caller = .error .EInvalidMeasurement ↔
      fp.length ≠ 32) ∧
    (fp.length = 32 → lookupA reg.measurements fp = none →
      whitelist_measurement reg fp d now caller =
        .ok { reg with measurements :=
          (fp, { description := d, added_at := now, active := true })
            :: reg.measurements } ∧
      is_measurement_whitelisted
        { reg with measurements :=
          (fp, { description := d, added_at := now, active := true })
            :: reg.measurements } fp = true) := by
  constructor
  · constructor
    · intro h
      unfold whitelist_measurement at h
      rw [if_neg (fun hne => hne hadmin.symm)] at h
      by_cases hlen : fp.length ≠ 32
      · exact hlen
      · rw [if_neg hlen] at h
        split at h
        · simp at h
        · simp at h
    · intro hlen
      unfold whitelist_measurement
      rw [if_neg (fun hne => hne hadmin.symm), if_pos hlen]
  · intro hlen hnone
    constructor
    · unfold whitelist_measurement
      rw [if_neg (fun hne => hne hadmin.symm), if_neg (fun hne => hne hlen),
        if_neg (by simp [hnone])]
    · simp [is_measurement_whitelisted, lookupA]

/-- Witness for C8 (amended): registering a fresh 32-byte fingerprint on the
freshly published registry succeeds and it is immediately active. -/
theorem whitelist_measurement_spec_witness :
    whitelist_measurement (initMeasurementRegistry 0) exFp "d" 3 0 = .ok exFpRegistry ∧
    is_measurement_whitelisted exFpRegistry exFp = true :=
  (whitelist_measurement_spec (initMeasurementRegistry 0) exFp "d" 3 0 rfl).2 rfl rfl

/-- C10: `create_claim` places no upper bound on `creator_fee_bps` — it
accepts any value whenever the deadline is in the future (and the claim
counter does not overflow) — and for an accepted over-100% fee setting
(creator 20000 bps + protocol 100 bps), a winner with positive
`winnings_from_losers` hits a u64 subtraction underflow abort in
`net_winnings = winnings_from_losers - fees` inside `claim_winnings`, which
is none of the module's declared error codes (`overfee_scenario` chains the
source operations create, stake 600 YES / 400 NO, resolve YES, claim). -/
theorem create_claim_fee_unbounded :
    (∀ (registry : ClaimRegistry) (s e d : String) (deadline fee creator now : Nat),
      now < deadline → registry.total_claims + 1 < U64_MOD →
      create_claim registry s e d deadline fee creator now =
        .ok ({ registry with total_claims := registry.total_claims + 1 },
          { creator := creator, spec_blob_id := s, evidence_blob_id := e,
            description := d, deadline := deadline, status := .Open, result := none,
            result_blob_id := none, resolver_measurement := none, yes_stake := 0,
            no_stake := 0, creator_fee_bps := fee,
            protocol_fee_bps := registry.default_protocol_fee_bps, escrow := 0,
            created_at := now, resolved_at := none })) ∧
    overfee_scenario = .error .EArithUnderflow := by
  constructor
  · intro registry s e d deadline fee creator now h1 h2
    unfold create_claim
    rw [if_neg (by omega), if_neg (by omega)]
  · rfl

/-- Witness for C10: creating a claim with a 20000 bps (200%) creator fee is
accepted. -/
theorem create_claim_fee_unbounded_witness :
    create_claim (initRegistry 0) "s" "e" "d" 100 20000 0 0 =
      .ok ({ total_claims := 1, protocol_fee_recipient := 0,
             default_protocol_fee_bps := 100 },
        { creator := 0, spec_blob_id := "s", evidence_blob_id := "e",
          description := "d", deadline := 100, status := .Open, result := none,
          result_blob_id := none, resolver_measurement := none, yes_stake := 0,
          no_stake := 0, creator_fee_bps := 20000, protocol_fee_bps := 100,
          escrow := 0, created_at := 0, resolved_at := none }) :=
  create_claim_fee_unbounded.1 (initRegistry 0) "s" "e" "d" 100 20000 0 0
    (by decide) (by decide)

theorem claim_refund_ok_spec {c : Claim} {p : Position} {caller : Nat}
    {c' : Claim} {p' : Position} {coin : Nat}
    (h : claim_refund c p caller = .ok (c', p', coin)) :
    c.status = .Cancelled ∧ p.claimed = false ∧ p.user = caller ∧
    coin = p.yes_amount + p.no_amount ∧ 0 < coin ∧ coin ≤ c.escrow ∧
    c' = { c with escrow := c.escrow - coin } ∧ p' = { p with claimed := true } := by
  unfold claim_refund at h
  split at h
  · exact Except.noConfusion h
  split at h
  · exact Except.noConfusion h
  split at h
  · exact Except.noConfusion h
  split at h
  · exact Except.noConfusion h
  split at h
  · exact Except.noConfusion h
  rename_i hst hcl hus hov hz
  split at h
  · exact Except.noConfusion h
  rename_i claim0 coin0 hwd
  rw [Except.ok.injEq, Prod.mk.injEq, Prod.mk.injEq] at h
  obtain ⟨h1, h2, h3⟩ := h
  obtain ⟨hle, hcoin, hcl'⟩ := withdraw_escrow_ok_spec hwd
  subst h1
  subst h2
  subst h3
  subst hcoin
  exact ⟨not_not.mp hst, by simpa using hcl, not_not.mp hus, rfl, by omega, hle,
    by rw [hcl'], rfl⟩

theorem mapE_ok {α β : Type} {x : Except MoveErr α} {f : α → β} {v : β}
    (h : x.map f = .ok v) : ∃ a, x = .ok a ∧ f a = v := by
  cases x with
  | error e => exact Except.noConfusion h
  | ok a => exact ⟨a, rfl, Except.ok.inj h⟩

theorem capply_escrow_inv {c : Claim} {w : Nat} {op : COp} {c' : Claim} {w' : Nat}
    (h : capply c w op = .ok (c', w')) (hinv : EscrowInv c w) : EscrowInv c' w' := by
  cases op with
  | AddStake a y =>
    have h2 : (add_stake c a y).map (fun x => (x, w)) = .ok (c', w') := h
    obtain ⟨c0, ha, hv⟩ := mapE_ok h2
    have hv2 : (c0, w) = (c', w') := hv
    rw [Prod.mk.injEq] at hv2
    obtain ⟨h3, h4⟩ := hv2
    subst h3
    subst h4
    obtain ⟨_, _, hesc, _, _, _, hside⟩ := add_stake_ok_spec ha
    unfold EscrowInv at hinv ⊢
    rcases hside with ⟨_, hy, hn⟩ | ⟨_, hy, hn⟩ <;> rw [hesc, hy, hn] <;> omega
  | Resolve r rb m now =>
    have h2 : (resolve_claim c r rb m now).map (fun x => (x, w)) = .ok (c', w') := h
    obtain ⟨c0, ha, hv⟩ := mapE_ok h2
    have hv2 : (c0, w) = (c', w') := hv
    rw [Prod.mk.injEq] at hv2
    obtain ⟨h3, h4⟩ := hv2
    subst h3
    subst h4
    obtain ⟨_, _, hc0⟩ := resolve_claim_ok_spec ha
    subst hc0
    exact hinv
  | Cancel reason caller =>
    have h2 : (cancel_claim c reason caller).map (fun x => (x, w)) = .ok (c', w') := h
    obtain ⟨c0, ha, hv⟩ := mapE_ok h2
    have hv2 : (c0, w) = (c', w') := hv
    rw [Prod.mk.injEq] at hv2
    obtain ⟨h3, h4⟩ := hv2
    subst h3
    subst h4
    obtain ⟨_, _, _, _, hc0⟩ := cancel_claim_ok_spec ha
    subst hc0
    exact hinv
  | Withdraw a =>
    have h2 : (withdraw_escrow c a).map (fun pr => (pr.1, w + pr.2)) = .ok (c', w') := h
    obtain ⟨pr, ha, hv⟩ := mapE_ok h2
    obtain ⟨c0, coin⟩ := pr
    have hv2 : (c0, w + coin) = (c', w') := hv
    rw [Prod.mk.injEq] at hv2
    obtain ⟨h3, h4⟩ := hv2
    subst h3
    subst h4
    obtain ⟨hle, hcoin, hc0⟩ := withdraw_escrow_ok_spec ha
    subst hcoin
    subst hc0
    unfold EscrowInv at hinv ⊢
    simp only
    omega

theorem crun_escrow_inv (ops : List COp) {c : Claim} {w : Nat} {c' : Claim} {w' : Nat}
    (h : crun c w ops = .ok (c', w')) (hinv : EscrowInv c w) : EscrowInv c' w' := by
  induction ops generalizing c w with
  | nil =>
    unfold crun at h
    have h2 : (Except.ok (c, w) : Except MoveErr (Claim × Nat)) = .ok (c', w') := h
    rw [Except.ok.injEq, Prod.mk.injEq] at h2
    obtain ⟨h3, h4⟩ := h2
    subst h3
    subst h4
    exact hinv
  | cons op rest ih =>
    unfold crun at h
    cases hs : capply c w op with
    | error e => rw [hs] at h; exact Except.noConfusion h
    | ok cw =>
      obtain ⟨c0, w0⟩ := cw
      rw [hs] at h
      exact ih h (capply_escrow_inv hs hinv)

/-- C2: escrow accounting. For every claim created by `create_claim` and
every reachable state under sequences of `add_stake`, `resolve_claim`,
`cancel_claim` and `withdraw_escrow`, the escrow balance equals
`yes_stake + no_stake` minus the sum of all successfully withdrawn amounts
(so escrow equals the stake sum until the first withdrawal; escrow is a
`Nat` and `withdraw_escrow` aborts rather than overdraw, so it never goes
negative); moreover `add_stake` increases escrow and exactly one side total
by the staked amount, `resolve_claim` and `cancel_claim` leave escrow and
both side totals unchanged, and `withdraw_escrow` only decreases escrow,
never beyond its balance. -/
theorem escrow_accounting :
    (∀ (registry : ClaimRegistry) (s e d : String) (deadline fee creator now : Nat)
      (reg' : ClaimRegistry) (c0 : Claim),
      create_claim registry s e d deadline fee creator now = .ok (reg', c0) →
      ∀ (ops : List COp) (c : Claim) (wsum : Nat),
        crun c0 0 ops = .ok (c, wsum) →
        c.escrow + wsum = c.yes_stake + c.no_stake) ∧
    (∀ (c : Claim) (a : Nat) (y : Bool) (c' : Claim), add_stake c a y = .ok c' →
      c'.escrow = c.escrow + a ∧
      (y = true → c'.yes_stake = c.yes_stake + a ∧ c'.no_stake = c.no_stake) ∧
      (y = false → c'.yes_stake = c.yes_stake ∧ c'.no_stake = c.no_stake + a)) ∧
    (∀ (c : Claim) (r : Bool) (rb : String) (m : List Nat) (now : Nat) (c' : Claim),
      resolve_claim c r rb m now = .ok c' →
      c'.escrow = c.escrow ∧ c'.yes_stake = c.yes_stake ∧ c'.no_stake = c.no_stake) ∧
    (∀ (c : Claim) (reason : String) (caller : Nat) (c' : Claim),
      cancel_claim c reason caller = .ok c' →
      c'.escrow = c.escrow ∧ c'.yes_stake = c.yes_stake ∧ c'.no_stake = c.no_stake) ∧
    (∀ (c : Claim) (a : Nat) (c' : Claim) (coin : Nat),
      withdraw_escrow c a = .ok (c', coin) →
      coin = a ∧ a ≤ c.escrow ∧ c'.escrow = c.escrow - a ∧
      c'.yes_stake = c.yes_stake ∧ c'.no_stake = c.no_stake) := by
  refine ⟨?_, ?_, ?_, ?_, ?_⟩
  · intro registry s e d deadline fee creator now reg' c0 hcr ops c wsum hrun
    obtain ⟨_, _, hy, hn, hesc, _, _⟩ := create_claim_ok_spec hcr
    exact crun_escrow_inv ops hrun (by unfold EscrowInv; omega)
  · intro c a y c' h
    obtain ⟨_, _, hesc, _, _, _, hside⟩ := add_stake_ok_spec h
    refine ⟨hesc, ?_, ?_⟩
    · intro hy
      rcases hside with ⟨_, h1, h2⟩ | ⟨hy2, _, _⟩
      · exact ⟨h1, h2⟩
      · rw [hy] at hy2; cases hy2
    · intro hy
      rcases hside with ⟨hy2, _, _⟩ | ⟨_, h1, h2⟩
      · rw [hy] at hy2; cases hy2
      · exact ⟨h1, h2⟩
  · intro c r rb m now c' h
    obtain ⟨_, _, hc'⟩ := resolve_claim_ok_spec h
    subst hc'
    exact ⟨rfl, rfl, rfl⟩
  · intro c reason caller c' h
    obtain ⟨_, _, _, _, hc'⟩ := cancel_claim_ok_spec h
    subst hc'
    exact ⟨rfl, rfl, rfl⟩
  · intro c a c' coin h
    obtain ⟨hle, hcoin, hc'⟩ := withdraw_escrow_ok_spec h
    subst hcoin
    subst hc'
    exact ⟨rfl, hle, rfl, rfl, rfl⟩

/-- Witness for C2: from the freshly created `exOpenClaim`, staking 5 on YES
and withdrawing 3 leaves escrow 2 with a withdrawal sum of 3, and
2 + 3 = 5 + 0. -/
theorem escrow_accounting_witness :
    crun exOpenClaim 0 [COp.AddStake 5 true, COp.Withdraw 3] = .ok (exC2End, 3) ∧
    exC2End.escrow + 3 = exC2End.yes_stake + exC2End.no_stake :=
  ⟨rfl, escrow_accounting.1 (initRegistry 0) "s" "e" "d" 10 100 5 0
    { initRegistry 0 with total_claims := 1 } exOpenClaim rfl
    [COp.AddStake 5 true, COp.Withdraw 3] exC2End 3 rfl⟩

theorem getObj_ok {β : Type} {l : List (Nat × β)} {k : Nat} {v : β}
    (h : getObj l k = .ok v) : lookupA l k = some v := by
  unfold getObj at h
  cases hlk : lookupA l k with
  | none => rw [hlk] at h; exact Except.noConfusion h
  | some v0 => rw [hlk] at h; rw [Except.ok.inj h]

theorem WInv_init (p : Nat) : WInv (initWorld p) := by
  constructor
  · intro cid c h
    exact Option.noConfusion h
  · intro pid q h
    exact Option.noConfusion h

theorem WInv_update_claim {w : World} (hw : WInv w) {cid : Nat} {c c1 : Claim}
    (hlkc : lookupA w.claims cid = some c)
    (hyz : c.yes_stake ≤ c1.yes_stake) (hnz : c.no_stake ≤ c1.no_stake)
    (hci : ClaimInv c1) :
    WInv { w with claims := updateA w.claims cid c1 } := by
  constructor
  · intro cid' c' hlk
    by_cases h1 : cid' = cid
    · subst h1
      rw [lookupA_updateA_self w.claims cid' c1 c hlkc] at hlk
      obtain rfl := (Option.some.inj hlk).symm
      exact ⟨(hw.1 cid' c hlkc).1, hci⟩
    · rw [lookupA_updateA_ne _ _ _ _ h1] at hlk
      exact hw.1 cid' c' hlk
  · intro pid' p' hlk
    obtain ⟨hb, hrest⟩ := hw.2 pid' p' hlk
    refine ⟨hb, ?_⟩
    intro c' hlkc'
    by_cases h3 : p'.claim_id = cid
    · rw [h3, lookupA_updateA_self w.claims cid c1 c hlkc] at hlkc'
      obtain rfl := (Option.some.inj hlkc').symm
      have hold := hrest c (by rw [h3]; exact hlkc)
      omega
    · rw [lookupA_updateA_ne _ _ _ _ h3] at hlkc'
      exact hrest c' hlkc'

theorem WInv_update_claim_pos {w : World} (hw : WInv w) {cid pid : Nat}
    {c c1 : Claim} {p p1 : Position}
    (hlkc : lookupA w.claims cid = some c) (hlkp : lookupA w.positions pid = some p)
    (hy : c1.yes_stake = c.yes_stake) (hn : c1.no_stake = c.no_stake)
    (hst : c1.status = c.status) (hesc : c1.escrow ≤ c.escrow)
    (hpid : p1.claim_id = p.claim_id) (hpy : p1.yes_amount = p.yes_amount)
    (hpn : p1.no_amount = p.no_amount) :
    WInv { w with claims := updateA w.claims cid c1,
                  positions := updateA w.positions pid p1 } := by
  have hci : ClaimInv c1 := by
    obtain ⟨hcanc, hce⟩ := (hw.1 cid c hlkc).2
    constructor
    · intro hc1
      rw [hst] at hc1
      obtain ⟨a1, a2⟩ := hcanc hc1
      omega
    · omega
  constructor
  · intro cid' c' hlk
    by_cases h1 : cid' = cid
    · subst h1
      rw [lookupA_updateA_self w.claims cid' c1 c hlkc] at hlk
      obtain rfl := (Option.some.inj hlk).symm
      exact ⟨(hw.1 cid' c hlkc).1, hci⟩
    · rw [lookupA_updateA_ne _ _ _ _ h1] at hlk
      exact hw.1 cid' c' hlk
  · intro pid' p' hlk
    by_cases h2 : pid' = pid
    · subst h2
      rw [lookupA_updateA_self w.positions pid' p1 p hlkp] at hlk
      obtain rfl := (Option.some.inj hlk).symm
      obtain ⟨hb, hrest⟩ := hw.2 pid' p hlkp
      refine ⟨by rw [hpid]; exact hb, ?_⟩
      intro c' hlkc'
      rw [hpid] at hlkc'
      by_cases h3 : p.claim_id = cid
      · rw [h3, lookupA_updateA_self w.claims cid c1 c hlkc] at hlkc'
        obtain rfl := (Option.some.inj hlkc').symm
        have hold := hrest c (by rw [h3]; exact hlkc)
        omega
      · rw [lookupA_updateA_ne _ _ _ _ h3] at hlkc'
        have hold := hrest c' hlkc'
        omega
    · rw [lookupA_updateA_ne _ _ _ _ h2] at hlk
      obtain ⟨hb, hrest⟩ := hw.2 pid' p' hlk
      refine ⟨hb, ?_⟩
      intro c' hlkc'
      by_cases h3 : p'.claim_id = cid
      · rw [h3, lookupA_updateA_self w.claims cid c1 c hlkc] at hlkc'
        obtain rfl := (Option.some.inj hlkc').symm
        have hold := hrest c (by rw [h3]; exact hlkc)
        omega
      · rw [lookupA_updateA_ne _ _ _ _ h3] at hlkc'
        exact hrest c' hlkc'

theorem stepW_inv {w : World} {op : WOp} {w' : World} (hw : WInv w)
    (h : stepW w op = .ok w') : WInv w' := by
  cases op with
  | CreateClaim s e d deadline fee creator now =>
    have hq2 : (create_claim w.registry s e d deadline fee creator now).map
        (fun rc => { w with registry := rc.1, claims := (w.next_id, rc.2) :: w.claims,
                            next_id := w.next_id + 1 }) = .ok w' := h
    obtain ⟨rc, hcr, hmap⟩ := mapE_ok hq2
    obtain ⟨reg', c0⟩ := rc
    have hw'eq : ({ w with registry := reg',
                           claims := (w.next_id, c0) :: w.claims,
                           next_id := w.next_id + 1 } : World) = w' := hmap
    subst hw'eq
    obtain ⟨_, hst0, hy0, hn0, he0, _, _⟩ := create_claim_ok_spec hcr
    constructor
    · intro cid c hlk
      have hlk2 : (if w.next_id = cid then some c0 else lookupA w.claims cid) = some c := hlk
      by_cases hid : w.next_id = cid
      · rw [if_pos hid] at hlk2
        obtain rfl := (Option.some.inj hlk2).symm
        refine ⟨show cid < w.next_id + 1 by omega, ?_, ?_⟩
        · intro hcan
          rw [hst0] at hcan
          cases hcan
        · omega
      · rw [if_neg hid] at hlk2
        obtain ⟨hb, hci⟩ := hw.1 cid c hlk2
        exact ⟨show cid < w.next_id + 1 by omega, hci⟩
    · intro pid p hlk
      obtain ⟨hb, hrest⟩ := hw.2 pid p hlk
      refine ⟨show p.claim_id < w.next_id + 1 by omega, ?_⟩
      intro c hlkc
      have hlkc2 : (if w.next_id = p.claim_id then some c0
          else lookupA w.claims p.claim_id) = some c := hlkc
      rw [if_neg (by omega)] at hlkc2
      exact hrest c hlkc2
  | CreateMarket cid =>
    have hw'eq : ({ w with markets := (w.next_id, create_market cid) :: w.markets,
                           next_id := w.next_id + 1 } : World) = w' := Except.ok.inj h
    subst hw'eq
    constructor
    · intro cid' c hlk
      obtain ⟨hb, hci⟩ := hw.1 cid' c hlk
      exact ⟨show cid' < w.next_id + 1 by omega, hci⟩
    · intro pid p hlk
      obtain ⟨hb, hrest⟩ := hw.2 pid p hlk
      exact ⟨show p.claim_id < w.next_id + 1 by omega, hrest⟩
  | Stake cid mid amount is_yes user =>
    obtain ⟨c, hgc, hq2⟩ := bindE_ok h
    obtain ⟨m, hgm, hq3⟩ := bindE_ok hq2
    obtain ⟨r, hs, hmap⟩ := mapE_ok hq3
    obtain ⟨c1, m1, pos1⟩ := r
    have hw'eq : ({ w with claims := updateA w.claims cid c1,
                           markets := updateA w.markets mid m1,
                           positions := (w.next_id, pos1) :: w.positions,
                           next_id := w.next_id + 1 } : World) = w' := hmap
    subst hw'eq
    have hlkc := getObj_ok hgc
    obtain ⟨hapos, hopen, hadd, hpid, hpuser, hpcl, hpy, hpn, hnodup⟩ := stake_ok_spec hs
    obtain ⟨_, hst1, hesc1, _, _, _, hside⟩ := add_stake_ok_spec hadd
    have hbcid : cid < w.next_id := (hw.1 cid c hlkc).1
    have hescold := (hw.1 cid c hlkc).2.2
    have hci1 : ClaimInv c1 := by
      constructor
      · intro hcan
        rw [hst1] at hcan
        cases hcan
      · rcases hside with ⟨_, a1, a2⟩ | ⟨_, a1, a2⟩ <;> rw [hesc1, a1, a2] <;> omega
    constructor
    · intro cid' c' hlk
      by_cases h1 : cid' = cid
      · subst h1
        rw [lookupA_updateA_self w.claims cid' c1 c hlkc] at hlk
        obtain rfl := (Option.some.inj hlk).symm
        exact ⟨show cid' < w.next_id + 1 by omega, hci1⟩
      · rw [lookupA_updateA_ne _ _ _ _ h1] at hlk
        obtain ⟨hb, hci⟩ := hw.1 cid' c' hlk
        exact ⟨show cid' < w.next_id + 1 by omega, hci⟩
    · intro pid' p' hlk
      have hlk2 : (if w.next_id = pid' then some pos1
          else lookupA w.positions pid') = some p' := hlk
      by_cases hid : w.next_id = pid'
      · rw [if_pos hid] at hlk2
        obtain rfl := (Option.some.inj hlk2).symm
        refine ⟨show p'.claim_id < w.next_id + 1 by rw [hpid]; omega, ?_⟩
        intro c' hlkc'
        rw [hpid] at hlkc'
        rw [lookupA_updateA_self w.claims cid c1 c hlkc] at hlkc'
        obtain rfl := (Option.some.inj hlkc').symm
        rw [hpy, hpn]
        rcases hside with ⟨hyy, a1, a2⟩ | ⟨hyy, a1, a2⟩ <;> rw [hyy, a1, a2] <;>
          constructor <;> simp
      · rw [if_neg hid] at hlk2
        obtain ⟨hb, hrest⟩ := hw.2 pid' p' hlk2
        refine ⟨show p'.claim_id < w.next_id + 1 by omega, ?_⟩
        intro c' hlkc'
        by_cases h3 : p'.claim_id = cid
        · rw [h3, lookupA_updateA_self w.claims cid c1 c hlkc] at hlkc'
          obtain rfl := (Option.some.inj hlkc').symm
          have hold := hrest c (by rw [h3]; exact hlkc)
          rcases hside with ⟨_, a1, a2⟩ | ⟨_, a1, a2⟩ <;> rw [a1, a2] <;> omega
        · rw [lookupA_updateA_ne _ _ _ _ h3] at hlkc'
          exact hrest c' hlkc'
  | Resolve cid r b meas now =>
    obtain ⟨c, hgc, hq2⟩ := bindE_ok h
    obtain ⟨c1, hres, hmap⟩ := mapE_ok hq2
    have hw'eq : ({ w with claims := updateA w.claims cid c1 } : World) = w' := hmap
    subst hw'eq
    have hlkc := getObj_ok hgc
    obtain ⟨_, _, hc1⟩ := resolve_claim_ok_spec hres
    refine WInv_update_claim hw hlkc ?_ ?_ ?_
    · rw [hc1]
    · rw [hc1]
    · constructor
      · intro hcan
        rw [hc1] at hcan
        cases hcan
      · have := (hw.1 cid c hlkc).2.2
        rw [hc1]
        simpa using this
  | Cancel cid reason caller =>
    obtain ⟨c, hgc, hq2⟩ := bindE_ok h
    obtain ⟨c1, hcan, hmap⟩ := mapE_ok hq2
    have hw'eq : ({ w with claims := updateA w.claims cid c1 } : World) = w' := hmap
    subst hw'eq
    have hlkc := getObj_ok hgc
    obtain ⟨_, hy0, hn0, _, hc1⟩ := cancel_claim_ok_spec hcan
    refine WInv_update_claim hw hlkc ?_ ?_ ?_
    · rw [hc1]
    · rw [hc1]
    · constructor
      · intro _
        rw [hc1]
        exact ⟨hy0, hn0⟩
      · have := (hw.1 cid c hlkc).2.2
        rw [hc1]
        simpa using this
  | Winnings cid pid caller =>
    obtain ⟨c, hgc, hq2⟩ := bindE_ok h
    obtain ⟨p, hgp, hq3⟩ := bindE_ok hq2
    obtain ⟨r, hwin, hmap⟩ := mapE_ok hq3
    obtain ⟨c1, p1, coin⟩ := r
    have hw'eq : ({ w with claims := updateA w.claims cid c1,
                           positions := updateA w.positions pid p1 } : World) = w' := hmap
    subst hw'eq
    obtain ⟨_, _, _, hle, hc1, hp1, _⟩ := claim_winnings_ok_spec hwin
    subst hc1
    subst hp1
    exact WInv_update_claim_pos hw (getObj_ok hgc) (getObj_ok hgp)
      rfl rfl rfl (by simp) rfl rfl rfl
  | Refund cid pid caller =>
    obtain ⟨c, hgc, hq2⟩ := bindE_ok h
    obtain ⟨p, hgp, hq3⟩ := bindE_ok hq2
    obtain ⟨r, href, hmap⟩ := mapE_ok hq3
    obtain ⟨c1, p1, coin⟩ := r
    have hw'eq : ({ w with claims := updateA w.claims cid c1,
                           positions := updateA w.positions pid p1 } : World) = w' := hmap
    subst hw'eq
    obtain ⟨_, _, _, _, _, hle, hc1, hp1⟩ := claim_refund_ok_spec href
    subst hc1
    subst hp1
    exact WInv_update_claim_pos hw (getObj_ok hgc) (getObj_ok hgp)
      rfl rfl rfl (by simp) rfl rfl rfl
  | UpdateProtocolFee f caller =>
    have hq2 : (require (w.registry.protocol_fee_recipient = caller) .EUnauthorized).map
        (fun _ => { w with registry :=
          { w.registry with default_protocol_fee_bps := f } }) = .ok w' := h
    obtain ⟨u, _, hmap⟩ := mapE_ok hq2
    have hw'eq : ({ w with registry :=
        { w.registry with default_protocol_fee_bps := f } } : World) = w' := hmap
    subst hw'eq
    exact hw

theorem runW_inv (ops : List WOp) {w w' : World} (hw : WInv w)
    (h : runW w ops = .ok w') : WInv w' := by
  induction ops generalizing w with
  | nil =>
    have h2 : (Except.ok w : Except MoveErr World) = .ok w' := h
    obtain rfl := Except.ok.inj h2
    exact hw
  | cons op rest ih =>
    unfold runW at h
    cases hs : stepW w op with
    | error e => rw [hs] at h; exact Except.noConfusion h
    | ok w0 =>
      rw [hs] at h
      exact ih (stepW_inv hw hs) h

/-- C9: in every reachable world state, the successful path of
`claim_refund` is unreachable — no call can return funds. Cancellation
requires both stake totals to be zero, positions are only created by stakes
that simultaneously increase those totals while the claim is Open, and the
totals never decrease; hence every position referencing a Cancelled claim has
`yes_amount + no_amount = 0` (in fact no stake ever succeeded on such a
claim), and every `claim_refund` transaction aborts: with NoWinnings on a
zero-amount position, and otherwise — for a position of another claim passed
against a cancelled claim, which the source does not rule out — with the
escrow abort, since a cancelled claim's escrow is zero. -/
theorem refund_returns_nothing (w : World) (hw : ReachableW w) :
    (∀ pid p cid c, lookupA w.positions pid = some p → p.claim_id = cid →
      lookupA w.claims cid = some c → c.status = .Cancelled →
      p.yes_amount + p.no_amount = 0) ∧
    (∀ cid pid caller w', stepW w (.Refund cid pid caller) ≠ .ok w') := by
  obtain ⟨pub, ops, hrun⟩ := hw
  have hInv := runW_inv ops (WInv_init pub) hrun
  constructor
  · intro pid p cid c hlkp hpc hlkc hcan
    obtain ⟨_, hrest⟩ := hInv.2 pid p hlkp
    have hb := hrest c (by rw [hpc]; exact hlkc)
    obtain ⟨hz1, hz2⟩ := (hInv.1 cid c hlkc).2.1 hcan
    omega
  · intro cid pid caller w' hstep
    obtain ⟨c, hgc, hq2⟩ := bindE_ok hstep
    obtain ⟨p, hgp, hq3⟩ := bindE_ok hq2
    obtain ⟨r, href, _⟩ := mapE_ok hq3
    obtain ⟨c1, p1, coin⟩ := r
    obtain ⟨hcan, _, _, hcoin, hpos, hle, _, _⟩ := claim_refund_ok_spec href
    have hlkc := getObj_ok hgc
    have hci := (hInv.1 cid c hlkc).2
    have hz := hci.1 hcan
    have hesc := hci.2
    omega

/-- Witness for C9: in the initial world (reachable by the empty run), a
refund transaction cannot succeed. -/
theorem refund_returns_nothing_witness :
    stepW (initWorld 0) (WOp.Refund 0 0 0) ≠ .ok (initWorld 0) :=
  (refund_returns_nothing (initWorld 0) ⟨0, [], rfl⟩).2 0 0 0 (initWorld 0)

end TruthMarkets
